import Mathlib

/-!
Verification development for the valuation engine
(`src/app/models/valuation_models.py` and the portfolio Monte-Carlo task of
`src/app/worker.py`).  Python floats are embedded as real numbers; numpy's
vectorised arithmetic becomes pointwise real arithmetic; `scipy.stats.norm.cdf`
is the mathematical standard-normal CDF, defined below as an integral of the
Gaussian density.  Fallible library calls are embedded with `Except`.
-/

noncomputable section

open scoped BigOperators
open MeasureTheory

/-! ## String helpers

The Python source dispatches on raw strings (`option_type.lower() == "call"`,
`"out" in barrier_type`).  We embed `str.lower` and the Python substring test
over the character lists underlying Lean strings. -/

/-- Embedding of Python `str.lower()` (ASCII case folding on each character). -/
def lowerStr (s : String) : String := ⟨s.data.map Char.toLower⟩

/-- Does the second list start with the first one? -/
def leadsList : List Char → List Char → Bool
  | [], _ => true
  | _ :: _, [] => false
  | a :: as, b :: bs => a == b && leadsList as bs

/-- Contiguous-sublist test on character lists. -/
def hasSubList (pat : List Char) : List Char → Bool
  | [] => leadsList pat []
  | l@(_ :: rest) => leadsList pat l || hasSubList pat rest

/-- Embedding of Python's `"out" in s` substring test. -/
def containsOut (s : String) : Bool := hasSubList "out".data s.data

/-! ## Standard normal density and CDF (scipy.stats.norm.pdf / norm.cdf) -/

/-- Standard normal probability density. -/
def gaussPdf (t : ℝ) : ℝ := (Real.sqrt (2 * Real.pi))⁻¹ * Real.exp (-(t ^ 2) / 2)

/-- Standard normal cumulative distribution function. -/
def normCdf (x : ℝ) : ℝ := ∫ t in Set.Iic x, gaussPdf t

namespace BlackScholesModel

/-- `BlackScholesModel._d1`. -/
def d1 (S K T r sigma : ℝ) : ℝ :=
  (Real.log (S / K) + (r + 0.5 * sigma ^ 2) * T) / (sigma * Real.sqrt T)

/-- `BlackScholesModel._d2`. -/
def d2 (d1v sigma T : ℝ) : ℝ := d1v - sigma * Real.sqrt T

/-- `BlackScholesModel.european_call`: intrinsic value for `T ≤ 0`, otherwise
the Black-Scholes closed form, floored at zero. -/
def european_call (S K T r sigma : ℝ) : ℝ :=
  if T ≤ 0 then max (S - K) 0
  else
    let dv1 := d1 S K T r sigma
    let dv2 := d2 dv1 sigma T
    max (S * normCdf dv1 - K * Real.exp (-r * T) * normCdf dv2) 0

/-- `BlackScholesModel.european_put`. -/
def european_put (S K T r sigma : ℝ) : ℝ :=
  if T ≤ 0 then max (K - S) 0
  else
    let dv1 := d1 S K T r sigma
    let dv2 := d2 dv1 sigma T
    max (K * Real.exp (-r * T) * normCdf (-dv2) - S * normCdf (-dv1)) 0

/-- Output record of `BlackScholesModel.greeks`. -/
structure Greeks where
  delta : ℝ
  gamma : ℝ
  theta : ℝ
  vega : ℝ
  rho : ℝ
  deriving DecidableEq

/-- `BlackScholesModel.greeks`: all five Greeks; zero when `T ≤ 0`.  An
`option_type` other than `"call"` (case-insensitively) takes the `else`
(put) branch, exactly as in the source. -/
def greeks (S K T r sigma : ℝ) (option_type : String) : Greeks :=
  if T ≤ 0 then ⟨0, 0, 0, 0, 0⟩
  else
    let dv1 := d1 S K T r sigma
    let dv2 := d2 dv1 sigma T
    let nd1 := normCdf dv1
    let nd2 := normCdf dv2
    let nprime_d1 := gaussPdf dv1
    let gamma := nprime_d1 / (S * sigma * Real.sqrt T)
    let vega := S * nprime_d1 * Real.sqrt T / 100
    if lowerStr option_type = "call" then
      { delta := nd1
        gamma := gamma
        theta := (-S * nprime_d1 * sigma / (2 * Real.sqrt T) -
            r * K * Real.exp (-r * T) * nd2) / 365
        vega := vega
        rho := K * T * Real.exp (-r * T) * nd2 }
    else
      { delta := nd1 - 1
        gamma := gamma
        theta := (-S * nprime_d1 * sigma / (2 * Real.sqrt T) +
            r * K * Real.exp (-r * T) * normCdf (-dv2)) / 365
        vega := vega
        rho := -(K * T * Real.exp (-r * T) * normCdf (-dv2)) }

end BlackScholesModel

/-! ## Bracketed root finder

Modelled from the spec: `scipy.optimize.brentq` is not part of this
repository; the spec describes it as "a bracketed root-finder
(bisection/Brent-style)" over the given bracket with at most 100 iterations,
raising on a bracket without a sign change.  We model it as bisection with
scipy's default absolute tolerance `xtol = 2e-12`; a same-sign bracket gives
the `valueError` outcome (scipy's `ValueError`, the only exception the
callers catch) and an exhausted iteration budget gives `runtimeError`
(scipy's `RuntimeError`, uncaught by the callers). -/

inductive BrentErr where
  | valueError
  | runtimeError
  deriving DecidableEq

/-- Absolute tolerance of scipy's `brentq` (`xtol = 2e-12`). -/
def brentXtol : ℝ := 2 / 10 ^ 12

/-- Bisection loop with an iteration budget. -/
def bisect (f : ℝ → ℝ) (a b : ℝ) : ℕ → Except BrentErr ℝ
  | 0 => .error .runtimeError
  | n + 1 =>
    let m := (a + b) / 2
    if (b - a) / 2 < brentXtol then .ok m
    else if f a * f m ≤ 0 then bisect f a m n
    else bisect f m b n

/-- Bracketed solver: error on a same-sign bracket, else bisection. -/
def brentq (f : ℝ → ℝ) (a b : ℝ) (maxiter : ℕ) : Except BrentErr ℝ :=
  if 0 < f a * f b then .error .valueError else bisect f a b maxiter

namespace BlackScholesModel

/-- The nested `objective` of `BlackScholesModel.implied_volatility`. -/
def iv_objective (option_price S K T r : ℝ) (option_type : String) (sigma : ℝ) : ℝ :=
  if lowerStr option_type = "call" then european_call S K T r sigma - option_price
  else european_put S K T r sigma - option_price

/-- `BlackScholesModel.implied_volatility`: `brentq` over `[0.001, 5.0]` with
at most 100 iterations; only `ValueError` is caught (returning `0.0`), any
other exception propagates. -/
def implied_volatility (option_price S K T r : ℝ) (option_type : String) :
    Except BrentErr ℝ :=
  match brentq (iv_objective option_price S K T r option_type) 0.001 5.0 100 with
  | .ok iv => .ok iv
  | .error .valueError => .ok 0.0
  | .error .runtimeError => .error .runtimeError

end BlackScholesModel

namespace BinomialTreeModel

/-- Terminal and exercise payoff with the source's string dispatch: anything
other than `"call"` (case-insensitively) takes the put branch. -/
def payoff (option_type : String) (K s : ℝ) : ℝ :=
  if lowerStr option_type = "call" then max (s - K) 0 else max (K - s) 0

/-- Backward induction of `BinomialTreeModel.european_option`, expressed on
the recombining tree: the value at a node with `n` steps to expiry and
underlying price `s` (the source stores `price_tree[j, i] = S*u^(i-j)*d^j`
and indexes the same recursion by `(j, i)`; multiplication commutes, so the
up/down children have prices `s*u` and `s*d`). -/
def euroNode (pay : ℝ → ℝ) (u d disc p : ℝ) : ℕ → ℝ → ℝ
  | 0, s => pay s
  | n + 1, s =>
    disc * (p * euroNode pay u d disc p n (s * u) +
      (1 - p) * euroNode pay u d disc p n (s * d))

/-- Backward induction of `BinomialTreeModel.american_option`: the node value
is `max(european_value, exercise_value)`. -/
def amerNode (pay : ℝ → ℝ) (u d disc p : ℝ) : ℕ → ℝ → ℝ
  | 0, s => pay s
  | n + 1, s =>
    max (disc * (p * amerNode pay u d disc p n (s * u) +
      (1 - p) * amerNode pay u d disc p n (s * d))) (pay s)

/-- `BinomialTreeModel.american_option` with CRR parameters
`dt = T/steps`, `u = e^{sigma*sqrt dt}`, `d = 1/u`,
`p = (e^{r*dt} - d)/(u - d)`. -/
def american_option (S K T r sigma : ℝ) (steps : ℕ) (option_type : String) : ℝ :=
  let dt := T / steps
  let u := Real.exp (sigma * Real.sqrt dt)
  let d := 1 / u
  let p := (Real.exp (r * dt) - d) / (u - d)
  amerNode (payoff option_type K) u d (Real.exp (-r * dt)) p steps S

/-- `BinomialTreeModel.european_option`. -/
def european_option (S K T r sigma : ℝ) (steps : ℕ) (option_type : String) : ℝ :=
  let dt := T / steps
  let u := Real.exp (sigma * Real.sqrt dt)
  let d := 1 / u
  let p := (Real.exp (r * dt) - d) / (u - d)
  euroNode (payoff option_type K) u d (Real.exp (-r * dt)) p steps S

end BinomialTreeModel

/-! ## Monte Carlo routines

numpy's global random source is abstracted: `R` is the hidden generator
state, `seedFn` embeds `np.random.seed`, `normDraw` produces one standard
normal draw and the successor state (`np.random.standard_normal(n)` consumes
`n` successive draws), and `mvnDraw` embeds
`np.random.multivariate_normal(mean, cov, size)`.  Every routine takes the
incoming global state and returns the outgoing one, exactly as the Python
routines mutate `np.random`'s module state. -/

/-- Output record of the Monte Carlo pricers:
`{price, std_error, confidence_interval=[lo, hi]}`. -/
structure MCResult where
  price : ℝ
  std_error : ℝ
  ci_lo : ℝ
  ci_hi : ℝ

namespace ExoticOptionsModel

variable {R : Type} (seedFn : ℕ → R) (normDraw : R → ℝ × R)

/-- Value of the `n`-th standard-normal draw starting from state `st`. -/
def drawAt : R → ℕ → ℝ
  | st, 0 => (normDraw st).1
  | st, n + 1 => drawAt (normDraw st).2 n

/-- Generator state after `n` draws. -/
def stateAfter : R → ℕ → R
  | st, 0 => st
  | st, n + 1 => stateAfter (normDraw st).2 n

/-- One path of `ExoticOptionsModel._generate_paths`:
`paths[p, i+1] = paths[p, i] * exp(drift + diffusion * z)`, where the shock
of column `i+1` for path `p` is draw number `i*num_paths + p` (each loop
iteration consumes `num_paths` draws at once). -/
def pathRec (S0 drift diffusion : ℝ) (z : ℕ → ℕ → ℝ) (p : ℕ) : ℕ → ℝ
  | 0 => S0
  | i + 1 => pathRec S0 drift diffusion z p i * Real.exp (drift + diffusion * z i p)

/-- `ExoticOptionsModel._generate_paths` (default seed 42 at every call
site): reseeds the global generator from `seed`, then builds the
`num_paths × (steps+1)` matrix of prices; also returns the outgoing
generator state. -/
def generate_paths (S0 T r sigma : ℝ) (steps num_paths : ℕ) (seed : ℕ) (_st : R) :
    (ℕ → ℕ → ℝ) × R :=
  let st0 := seedFn seed
  let dt := T / steps
  let drift := (r - 0.5 * sigma ^ 2) * dt
  let diffusion := sigma * Real.sqrt dt
  let z : ℕ → ℕ → ℝ := fun i p => drawAt normDraw st0 (i * num_paths + p)
  (fun p => pathRec S0 drift diffusion z p, stateAfter normDraw st0 (steps * num_paths))

/-- Row `p` of the path matrix as a list `[paths[p,0], ..., paths[p,steps]]`. -/
def pathList (mat : ℕ → ℕ → ℝ) (steps p : ℕ) : List ℝ :=
  (List.range (steps + 1)).map (mat p)

/-- Per-path payoff of `ExoticOptionsModel.barrier_option` (the body of its
path loop): the barrier-hit test dispatches on `barrier_type` (any string
other than the three explicitly compared ones falls to the `up_and_in`
branch), the intrinsic value on `option_type`, and out-versus-in on the
Python substring test `"out" in barrier_type`. -/
def barrierPayoff (path : List ℝ) (K level : ℝ) (barrier_type option_type : String) : ℝ :=
  let final_price := path.getLastD 0
  let barrier_hit : Bool :=
    if barrier_type = "down_and_out" then path.any fun x => decide (x ≤ level)
    else if barrier_type = "up_and_out" then path.any fun x => decide (level ≤ x)
    else if barrier_type = "down_and_in" then path.any fun x => decide (x ≤ level)
    else path.any fun x => decide (level ≤ x)
  let intrinsic :=
    if lowerStr option_type = "call" then max (final_price - K) 0
    else max (K - final_price) 0
  if containsOut barrier_type then (if barrier_hit then 0 else intrinsic)
  else (if barrier_hit then intrinsic else 0)

/-- Path `p` of the seed-42 ensemble that every exotic pricer call
regenerates, as a list. -/
def mcPath (S T r sigma : ℝ) (steps num_paths : ℕ) (st : R) (p : ℕ) : List ℝ :=
  pathList (generate_paths seedFn normDraw S T r sigma steps num_paths 42 st).1 steps p

/-- Final-price intrinsic value with the source's option-side dispatch. -/
def intrinsicPayoff (ot : String) (K final : ℝ) : ℝ :=
  if lowerStr ot = "call" then max (final - K) 0 else max (K - final) 0

/-- `ExoticOptionsModel.barrier_option`: simulate (seed 42), apply the
per-path payoff, discount the mean, and report the standard error and the
95% confidence interval (`np.std` is the population standard deviation). -/
def barrier_option (S K T r sigma level : ℝ) (barrier_type option_type : String)
    (num_paths steps : ℕ) (st : R) : MCResult × R :=
  let gp := generate_paths seedFn normDraw S T r sigma steps num_paths 42 st
  let payoffs : ℕ → ℝ := fun p =>
    barrierPayoff (pathList gp.1 steps p) K level barrier_type option_type
  let mean := (∑ p in Finset.range num_paths, payoffs p) / num_paths
  let price := Real.exp (-r * T) * mean
  let sd := Real.sqrt ((∑ p in Finset.range num_paths, (payoffs p - mean) ^ 2) / num_paths)
  let se := Real.exp (-r * T) * sd / Real.sqrt num_paths
  ({ price := price, std_error := se,
     ci_lo := price - 1.96 * se, ci_hi := price + 1.96 * se }, gp.2)

end ExoticOptionsModel

namespace BondPricingModel

/-- `BondPricingModel.bond_price`.  `periods = int(years*frequency)` is
Python truncation, which is `Nat.floor` on the nonnegative inputs of the
bond domain. -/
def bond_price (face_value coupon_rate yield_to_maturity years_to_maturity : ℝ)
    (frequency : ℕ) : ℝ :=
  let periods : ℕ := ⌊years_to_maturity * (frequency : ℝ)⌋₊
  let coupon_payment := face_value * coupon_rate / frequency
  let period_yield := yield_to_maturity / frequency
  if period_yield = 0 then face_value + coupon_payment * periods
  else
    let pv_coupons := coupon_payment * (1 - (1 + period_yield) ^ (-(periods : ℤ))) / period_yield
    let pv_face_value := face_value / (1 + period_yield) ^ periods
    pv_coupons + pv_face_value

/-- The nested `objective` of `BondPricingModel.bond_yield`. -/
def by_objective (price face_value coupon_rate years_to_maturity : ℝ)
    (frequency : ℕ) (y : ℝ) : ℝ :=
  bond_price face_value coupon_rate y years_to_maturity frequency - price

/-- `BondPricingModel.bond_yield`: `brentq` over `[0.001, 1.0]`, at most 100
iterations; only `ValueError` is caught (returning `0.0`). -/
def bond_yield (price face_value coupon_rate years_to_maturity : ℝ)
    (frequency : ℕ) : Except BrentErr ℝ :=
  match brentq (by_objective price face_value coupon_rate years_to_maturity frequency)
      0.001 1.0 100 with
  | .ok ytm => .ok ytm
  | .error .valueError => .ok 0.0
  | .error .runtimeError => .error .runtimeError

/-- Output record of `BondPricingModel.duration`. -/
structure DurationResult where
  macaulay_duration : ℝ
  modified_duration : ℝ
  price_of_bond : ℝ

/-- `BondPricingModel.duration`: present values `cf_t/(1+py)^t` for
`t = 1..periods` (face value added at `t = periods`), Macaulay duration as
the price-weighted mean payment time in years, modified duration as
Macaulay over `1 + yield/frequency`. -/
def duration (face_value coupon_rate yield_to_maturity years_to_maturity : ℝ)
    (frequency : ℕ) : DurationResult :=
  let periods : ℕ := ⌊years_to_maturity * (frequency : ℝ)⌋₊
  let coupon_payment := face_value * coupon_rate / frequency
  let period_yield := yield_to_maturity / frequency
  let cf : ℕ → ℝ := fun t => if t = periods then coupon_payment + face_value else coupon_payment
  let pv : ℕ → ℝ := fun t => cf t / (1 + period_yield) ^ t
  let price := ∑ t in Finset.Icc 1 periods, pv t
  let wsum := ∑ t in Finset.Icc 1 periods, pv t * t / frequency
  let mac := wsum / price
  { macaulay_duration := mac
    modified_duration := mac / (1 + yield_to_maturity / frequency)
    price_of_bond := price }

end BondPricingModel

/-! ## Portfolio Monte Carlo task (`src/app/worker.py`, `portfolio_monte_carlo_task`) -/

namespace Worker

variable {R : Type} (seedFn : ℕ → R)
variable (mvnDraw : List ℝ → List (List ℝ) → ℕ → R → (ℕ → List ℝ) × R)
variable {C : Type} (timeFn : C → ℝ × C)

end Worker

/-! ## Helper facts about the string dispatch -/

lemma lowerStr_call : lowerStr "call" = "call" := by decide

lemma lowerStr_put_ne_call : lowerStr "put" ≠ "call" := by decide

lemma containsOut_down_out : containsOut "down_and_out" = true := by decide

lemma containsOut_up_out : containsOut "up_and_out" = true := by decide

lemma containsOut_down_in : containsOut "down_and_in" = false := by decide

lemma containsOut_up_in : containsOut "up_and_in" = false := by decide

lemma any_le_iff (path : List ℝ) (level : ℝ) :
    (path.any fun x => decide (x ≤ level)) = true ↔ ∃ x ∈ path, x ≤ level := by
  simp [List.any_eq_true]

lemma any_ge_iff (path : List ℝ) (level : ℝ) :
    (path.any fun x => decide (level ≤ x)) = true ↔ ∃ x ∈ path, level ≤ x := by
  simp [List.any_eq_true]

/-! ## C4: expiry boundary -/

/-- C4: whenever `T ≤ 0` (any `sigma`, including `sigma = 0`),
`european_call` returns exactly `max (S-K) 0`, `european_put` returns
exactly `max (K-S) 0`, and `greeks` returns zero for all five Greeks; the
`d1`/`d2` volatility terms do not enter these branches. -/
theorem c4_expiry_boundary (S K T r sigma : ℝ) (hT : T ≤ 0) :
    BlackScholesModel.european_call S K T r sigma = max (S - K) 0 ∧
    BlackScholesModel.european_put S K T r sigma = max (K - S) 0 ∧
    ∀ ot : String, BlackScholesModel.greeks S K T r sigma ot =
      { delta := 0, gamma := 0, theta := 0, vega := 0, rho := 0 } := by
  refine ⟨?_, ?_, fun ot => ?_⟩ <;>
    simp [BlackScholesModel.european_call, BlackScholesModel.european_put,
      BlackScholesModel.greeks, hT]

/-- Witness for C4 at `S = 3`, `K = 1`, `T = 0`, `r = 1`, `sigma = 0`. -/
theorem c4_expiry_boundary_witness :
    (0 : ℝ) ≤ 0 ∧
    (BlackScholesModel.european_call 3 1 0 1 0 = max (3 - 1) 0 ∧
     BlackScholesModel.european_put 3 1 0 1 0 = max (1 - 3) 0 ∧
     ∀ ot : String, BlackScholesModel.greeks 3 1 0 1 0 ot =
       { delta := 0, gamma := 0, theta := 0, vega := 0, rho := 0 }) :=
  ⟨le_refl 0, c4_expiry_boundary 3 1 0 1 0 (le_refl 0)⟩

/-! ## C3: barrier payoff per path -/

open Classical in
/-- C3: on every path and for each of the eight barrier-kind × option-side
combinations, the barrier is hit iff some path value is `≤` the level
(down kinds) or `≥` the level (up kinds); `*out` payoffs are the intrinsic
value of the final path price unless the barrier was hit, `*in` payoffs are
the intrinsic value only if it was hit. -/
theorem c3_barrier_payoff_cases (path : List ℝ) (K level : ℝ) :
    (ExoticOptionsModel.barrierPayoff path K level "down_and_out" "call" =
      if ∃ x ∈ path, x ≤ level then 0 else max (path.getLastD 0 - K) 0) ∧
    (ExoticOptionsModel.barrierPayoff path K level "down_and_out" "put" =
      if ∃ x ∈ path, x ≤ level then 0 else max (K - path.getLastD 0) 0) ∧
    (ExoticOptionsModel.barrierPayoff path K level "up_and_out" "call" =
      if ∃ x ∈ path, level ≤ x then 0 else max (path.getLastD 0 - K) 0) ∧
    (ExoticOptionsModel.barrierPayoff path K level "up_and_out" "put" =
      if ∃ x ∈ path, level ≤ x then 0 else max (K - path.getLastD 0) 0) ∧
    (ExoticOptionsModel.barrierPayoff path K level "down_and_in" "call" =
      if ∃ x ∈ path, x ≤ level then max (path.getLastD 0 - K) 0 else 0) ∧
    (ExoticOptionsModel.barrierPayoff path K level "down_and_in" "put" =
      if ∃ x ∈ path, x ≤ level then max (K - path.getLastD 0) 0 else 0) ∧
    (ExoticOptionsModel.barrierPayoff path K level "up_and_in" "call" =
      if ∃ x ∈ path, level ≤ x then max (path.getLastD 0 - K) 0 else 0) ∧
    (ExoticOptionsModel.barrierPayoff path K level "up_and_in" "put" =
      if ∃ x ∈ path, level ≤ x then max (K - path.getLastD 0) 0 else 0) := by
  have hle := any_le_iff path level
  have hge := any_ge_iff path level
  refine ⟨?_, ?_, ?_, ?_, ?_, ?_, ?_, ?_⟩
  · cases h : path.any fun x => decide (x ≤ level) with
    | true =>
      rw [if_pos (hle.1 h)]
      simp [ExoticOptionsModel.barrierPayoff, containsOut_down_out, lowerStr_call, h]
    | false =>
      rw [if_neg fun hex => by simp [hle.2 hex] at h]
      simp [ExoticOptionsModel.barrierPayoff, containsOut_down_out, lowerStr_call, h]
  · cases h : path.any fun x => decide (x ≤ level) with
    | true =>
      rw [if_pos (hle.1 h)]
      simp [ExoticOptionsModel.barrierPayoff, containsOut_down_out, lowerStr_put_ne_call, h]
    | false =>
      rw [if_neg fun hex => by simp [hle.2 hex] at h]
      simp [ExoticOptionsModel.barrierPayoff, containsOut_down_out, lowerStr_put_ne_call, h]
  · cases h : path.any fun x => decide (level ≤ x) with
    | true =>
      rw [if_pos (hge.1 h)]
      simp [ExoticOptionsModel.barrierPayoff, containsOut_up_out, lowerStr_call, h]
    | false =>
      rw [if_neg fun hex => by simp [hge.2 hex] at h]
      simp [ExoticOptionsModel.barrierPayoff, containsOut_up_out, lowerStr_call, h]
  · cases h : path.any fun x => decide (level ≤ x) with
    | true =>
      rw [if_pos (hge.1 h)]
      simp [ExoticOptionsModel.barrierPayoff, containsOut_up_out, lowerStr_put_ne_call, h]
    | false =>
      rw [if_neg fun hex => by simp [hge.2 hex] at h]
      simp [ExoticOptionsModel.barrierPayoff, containsOut_up_out, lowerStr_put_ne_call, h]
  · cases h : path.any fun x => decide (x ≤ level) with
    | true =>
      rw [if_pos (hle.1 h)]
      simp [ExoticOptionsModel.barrierPayoff, containsOut_down_in, lowerStr_call, h]
    | false =>
      rw [if_neg fun hex => by simp [hle.2 hex] at h]
      simp [ExoticOptionsModel.barrierPayoff, containsOut_down_in, lowerStr_call, h]
  · cases h : path.any fun x => decide (x ≤ level) with
    | true =>
      rw [if_pos (hle.1 h)]
      simp [ExoticOptionsModel.barrierPayoff, containsOut_down_in, lowerStr_put_ne_call, h]
    | false =>
      rw [if_neg fun hex => by simp [hle.2 hex] at h]
      simp [ExoticOptionsModel.barrierPayoff, containsOut_down_in, lowerStr_put_ne_call, h]
  · cases h : path.any fun x => decide (level ≤ x) with
    | true =>
      rw [if_pos (hge.1 h)]
      simp [ExoticOptionsModel.barrierPayoff, containsOut_up_in, lowerStr_call, h]
    | false =>
      rw [if_neg fun hex => by simp [hge.2 hex] at h]
      simp [ExoticOptionsModel.barrierPayoff, containsOut_up_in, lowerStr_call, h]
  · cases h : path.any fun x => decide (level ≤ x) with
    | true =>
      rw [if_pos (hge.1 h)]
      simp [ExoticOptionsModel.barrierPayoff, containsOut_up_in, lowerStr_put_ne_call, h]
    | false =>
      rw [if_neg fun hex => by simp [hge.2 hex] at h]
      simp [ExoticOptionsModel.barrierPayoff, containsOut_up_in, lowerStr_put_ne_call, h]

/-! ## C6: unknown discriminants are silently substituted, not rejected -/

/-- C6 counterexample to the claim as stated: `greeks` called with the
invalid discriminant `"banana"` does not fail with any typed error; it
silently returns the record computed for `"put"`. -/
theorem c6_counterexample_silent_substitution :
    BlackScholesModel.greeks 100 100 1 (5 / 100) (2 / 10) "banana" =
      BlackScholesModel.greeks 100 100 1 (5 / 100) (2 / 10) "put" := by
  simp [BlackScholesModel.greeks, show lowerStr "banana" ≠ "call" from by decide,
    lowerStr_put_ne_call]

/-- C6 (amended): option-type discriminants other than `"call"`
(case-insensitively) are treated as `"put"`, and barrier-type discriminants
other than the three explicitly compared kinds are treated as
`"up_and_in"` (when they do not contain the substring `"out"`); the
routines return a normal value under the substituted discriminant and never
produce an error. -/
theorem c6_unknown_discriminant_substituted :
    (∀ (S K T r sigma : ℝ) (ot : String), lowerStr ot ≠ "call" →
      BlackScholesModel.greeks S K T r sigma ot =
        BlackScholesModel.greeks S K T r sigma "put") ∧
    (∀ (path : List ℝ) (K level : ℝ) (bt ot : String),
      bt ≠ "down_and_out" → bt ≠ "up_and_out" → bt ≠ "down_and_in" →
      containsOut bt = false →
      ExoticOptionsModel.barrierPayoff path K level bt ot =
        ExoticOptionsModel.barrierPayoff path K level "up_and_in" ot) := by
  constructor
  · intro S K T r sigma ot hot
    simp [BlackScholesModel.greeks, hot, lowerStr_put_ne_call]
  · intro path K level bt ot h1 h2 h3 h4
    simp [ExoticOptionsModel.barrierPayoff, h1, h2, h3, h4, containsOut_up_in]

/-- Witness for C6 at the unknown discriminants `"banana"` (option side)
and `"banana"` (barrier kind). -/
theorem c6_unknown_discriminant_substituted_witness :
    BlackScholesModel.greeks 1 2 3 4 5 "banana" =
      BlackScholesModel.greeks 1 2 3 4 5 "put" ∧
    ExoticOptionsModel.barrierPayoff [1, 2] 1 (3 / 2) "banana" "call" =
      ExoticOptionsModel.barrierPayoff [1, 2] 1 (3 / 2) "up_and_in" "call" :=
  ⟨c6_unknown_discriminant_substituted.1 1 2 3 4 5 "banana" (by decide),
   c6_unknown_discriminant_substituted.2 [1, 2] 1 (3 / 2) "banana" "call"
     (by decide) (by decide) (by decide) (by decide)⟩

/-! ## C8: determinism / independence of the incoming global RNG state -/

lemma barrierPayoff_down_pair (path : List ℝ) (K level : ℝ) (ot : String) :
    (ExoticOptionsModel.barrierPayoff path K level "down_and_out" ot =
        ExoticOptionsModel.intrinsicPayoff ot K (path.getLastD 0) ∧
      ExoticOptionsModel.barrierPayoff path K level "down_and_in" ot = 0) ∨
    (ExoticOptionsModel.barrierPayoff path K level "down_and_out" ot = 0 ∧
      ExoticOptionsModel.barrierPayoff path K level "down_and_in" ot =
        ExoticOptionsModel.intrinsicPayoff ot K (path.getLastD 0)) := by
  cases h : path.any fun x => decide (x ≤ level) with
  | true =>
    right
    constructor <;> simp [ExoticOptionsModel.barrierPayoff,
      ExoticOptionsModel.intrinsicPayoff, containsOut_down_out, containsOut_down_in, h]
  | false =>
    left
    constructor <;> simp [ExoticOptionsModel.barrierPayoff,
      ExoticOptionsModel.intrinsicPayoff, containsOut_down_out, containsOut_down_in, h]

lemma barrierPayoff_up_pair (path : List ℝ) (K level : ℝ) (ot : String) :
    (ExoticOptionsModel.barrierPayoff path K level "up_and_out" ot =
        ExoticOptionsModel.intrinsicPayoff ot K (path.getLastD 0) ∧
      ExoticOptionsModel.barrierPayoff path K level "up_and_in" ot = 0) ∨
    (ExoticOptionsModel.barrierPayoff path K level "up_and_out" ot = 0 ∧
      ExoticOptionsModel.barrierPayoff path K level "up_and_in" ot =
        ExoticOptionsModel.intrinsicPayoff ot K (path.getLastD 0)) := by
  cases h : path.any fun x => decide (level ≤ x) with
  | true =>
    right
    constructor <;> simp [ExoticOptionsModel.barrierPayoff,
      ExoticOptionsModel.intrinsicPayoff, containsOut_up_out, containsOut_up_in, h]
  | false =>
    left
    constructor <;> simp [ExoticOptionsModel.barrierPayoff,
      ExoticOptionsModel.intrinsicPayoff, containsOut_up_out, containsOut_up_in, h]

lemma barrier_option_price_eq {R : Type} (seedFn : ℕ → R) (normDraw : R → ℝ × R)
    (S K T r sigma level : ℝ) (bt ot : String) (num_paths steps : ℕ) (st : R) :
    (ExoticOptionsModel.barrier_option seedFn normDraw S K T r sigma level bt ot
        num_paths steps st).1.price =
      Real.exp (-r * T) * ((∑ p in Finset.range num_paths,
        ExoticOptionsModel.barrierPayoff
          (ExoticOptionsModel.mcPath seedFn normDraw S T r sigma steps num_paths st p)
          K level bt ot) / num_paths) := rfl

/-- C9: `barrier_option` with complementary in/out kinds regenerates the
identical seed-42 path ensemble; per path the two payoffs split the
final-price intrinsic value exactly (one equals it, the other is zero), so
the two prices sum exactly to the discounted mean of the intrinsic
payoffs.  This holds for the down pair and for the up pair alike. -/
theorem c9_barrier_in_out_decomposition {R : Type} (seedFn : ℕ → R)
    (normDraw : R → ℝ × R) (S K T r sigma level : ℝ) (ot : String)
    (num_paths steps : ℕ) (st : R) :
    (∀ p : ℕ,
      (ExoticOptionsModel.barrierPayoff
          (ExoticOptionsModel.mcPath seedFn normDraw S T r sigma steps num_paths st p)
          K level "down_and_out" ot =
        ExoticOptionsModel.intrinsicPayoff ot K
          ((ExoticOptionsModel.mcPath seedFn normDraw S T r sigma steps num_paths st p).getLastD 0) ∧
       ExoticOptionsModel.barrierPayoff
          (ExoticOptionsModel.mcPath seedFn normDraw S T r sigma steps num_paths st p)
          K level "down_and_in" ot = 0) ∨
      (ExoticOptionsModel.barrierPayoff
          (ExoticOptionsModel.mcPath seedFn normDraw S T r sigma steps num_paths st p)
          K level "down_and_out" ot = 0 ∧
       ExoticOptionsModel.barrierPayoff
          (ExoticOptionsModel.mcPath seedFn normDraw S T r sigma steps num_paths st p)
          K level "down_and_in" ot =
        ExoticOptionsModel.intrinsicPayoff ot K
          ((ExoticOptionsModel.mcPath seedFn normDraw S T r sigma steps num_paths st p).getLastD 0))) ∧
    (ExoticOptionsModel.barrier_option seedFn normDraw S K T r sigma level "down_and_out" ot
        num_paths steps st).1.price +
      (ExoticOptionsModel.barrier_option seedFn normDraw S K T r sigma level "down_and_in" ot
        num_paths steps st).1.price =
      Real.exp (-r * T) * ((∑ p in Finset.range num_paths,
        ExoticOptionsModel.intrinsicPayoff ot K
          ((ExoticOptionsModel.mcPath seedFn normDraw S T r sigma steps num_paths st p).getLastD 0)) /
        num_paths) ∧
    (∀ p : ℕ,
      (ExoticOptionsModel.barrierPayoff
          (ExoticOptionsModel.mcPath seedFn normDraw S T r sigma steps num_paths st p)
          K level "up_and_out" ot =
        ExoticOptionsModel.intrinsicPayoff ot K
          ((ExoticOptionsModel.mcPath seedFn normDraw S T r sigma steps num_paths st p).getLastD 0) ∧
       ExoticOptionsModel.barrierPayoff
          (ExoticOptionsModel.mcPath seedFn normDraw S T r sigma steps num_paths st p)
          K level "up_and_in" ot = 0) ∨
      (ExoticOptionsModel.barrierPayoff
          (ExoticOptionsModel.mcPath seedFn normDraw S T r sigma steps num_paths st p)
          K level "up_and_out" ot = 0 ∧
       ExoticOptionsModel.barrierPayoff
          (ExoticOptionsModel.mcPath seedFn normDraw S T r sigma steps num_paths st p)
          K level "up_and_in" ot =
        ExoticOptionsModel.intrinsicPayoff ot K
          ((ExoticOptionsModel.mcPath seedFn normDraw S T r sigma steps num_paths st p).getLastD 0))) ∧
    (ExoticOptionsModel.barrier_option seedFn normDraw S K T r sigma level "up_and_out" ot
        num_paths steps st).1.price +
      (ExoticOptionsModel.barrier_option seedFn normDraw S K T r sigma level "up_and_in" ot
        num_paths steps st).1.price =
      Real.exp (-r * T) * ((∑ p in Finset.range num_paths,
        ExoticOptionsModel.intrinsicPayoff ot K
          ((ExoticOptionsModel.mcPath seedFn normDraw S T r sigma steps num_paths st p).getLastD 0)) /
        num_paths) := by
  have hdown := fun p =>
    barrierPayoff_down_pair (ExoticOptionsModel.mcPath seedFn normDraw S T r sigma
      steps num_paths st p) K level ot
  have hup := fun p =>
    barrierPayoff_up_pair (ExoticOptionsModel.mcPath seedFn normDraw S T r sigma
      steps num_paths st p) K level ot
  have hsum_down : ∀ p : ℕ,
      ExoticOptionsModel.barrierPayoff
          (ExoticOptionsModel.mcPath seedFn normDraw S T r sigma steps num_paths st p)
          K level "down_and_out" ot +
        ExoticOptionsModel.barrierPayoff
          (ExoticOptionsModel.mcPath seedFn normDraw S T r sigma steps num_paths st p)
          K level "down_and_in" ot =
        ExoticOptionsModel.intrinsicPayoff ot K
          ((ExoticOptionsModel.mcPath seedFn normDraw S T r sigma steps num_paths st p).getLastD 0) := by
    intro p
    rcases hdown p with ⟨h1, h2⟩ | ⟨h1, h2⟩ <;> rw [h1, h2] <;> ring
  have hsum_up : ∀ p : ℕ,
      ExoticOptionsModel.barrierPayoff
          (ExoticOptionsModel.mcPath seedFn normDraw S T r sigma steps num_paths st p)
          K level "up_and_out" ot +
        ExoticOptionsModel.barrierPayoff
          (ExoticOptionsModel.mcPath seedFn normDraw S T r sigma steps num_paths st p)
          K level "up_and_in" ot =
        ExoticOptionsModel.intrinsicPayoff ot K
          ((ExoticOptionsModel.mcPath seedFn normDraw S T r sigma steps num_paths st p).getLastD 0) := by
    intro p
    rcases hup p with ⟨h1, h2⟩ | ⟨h1, h2⟩ <;> rw [h1, h2] <;> ring
  refine ⟨hdown, ?_, hup, ?_⟩
  · rw [barrier_option_price_eq, barrier_option_price_eq, ← mul_add, div_add_div_same,
      ← Finset.sum_add_distrib, Finset.sum_congr rfl fun p _ => hsum_down p]
  · rw [barrier_option_price_eq, barrier_option_price_eq, ← mul_add, div_add_div_same,
      ← Finset.sum_add_distrib, Finset.sum_congr rfl fun p _ => hsum_up p]

/-! ## C5 / C10: the bracketed root finders -/

lemma brentXtol_pos : 0 < brentXtol := by norm_num [brentXtol]

lemma bisect_converges (f : ℝ → ℝ) :
    ∀ (n : ℕ) (a b : ℝ), a ≤ b → b - a < brentXtol * 2 ^ n →
      ∃ v, bisect f a b (n + 1) = .ok v ∧ a ≤ v ∧ v ≤ b := by
  intro n
  induction n with
  | zero =>
    intro a b hab hw
    rw [pow_zero, mul_one] at hw
    have hx : (b - a) / 2 < brentXtol := by
      have := brentXtol_pos
      linarith
    exact ⟨(a + b) / 2, by simp only [bisect]; rw [if_pos hx], by linarith, by linarith⟩
  | succ n ih =>
    intro a b hab hw
    have hc : (0 : ℝ) < brentXtol * 2 ^ n :=
      mul_pos brentXtol_pos (by positivity)
    rw [pow_succ] at hw
    by_cases hx : (b - a) / 2 < brentXtol
    · exact ⟨(a + b) / 2, by simp only [bisect]; rw [if_pos hx], by linarith, by linarith⟩
    · by_cases hsign : f a * f ((a + b) / 2) ≤ 0
      · obtain ⟨v, hv, h1, h2⟩ := ih a ((a + b) / 2) (by linarith) (by linarith)
        exact ⟨v, by simp only [bisect]; rw [if_neg hx, if_pos hsign]; exact hv,
          h1, by linarith⟩
      · obtain ⟨v, hv, h1, h2⟩ := ih ((a + b) / 2) b (by linarith) (by linarith)
        exact ⟨v, by simp only [bisect]; rw [if_neg hx, if_neg hsign]; exact hv,
          by linarith, h2⟩

lemma brentq_iv_bracket (g : ℝ → ℝ) (hs : ¬ 0 < g 0.001 * g 5.0) :
    ∃ v, brentq g 0.001 5.0 100 = .ok v ∧ 0.001 ≤ v ∧ v ≤ 5.0 := by
  unfold brentq
  rw [if_neg hs, show (100 : ℕ) = 99 + 1 from rfl]
  exact bisect_converges g 99 0.001 5.0 (by norm_num) (by norm_num [brentXtol])

lemma brentq_yield_bracket (g : ℝ → ℝ) (hs : ¬ 0 < g 0.001 * g 1.0) :
    ∃ v, brentq g 0.001 1.0 100 = .ok v ∧ 0.001 ≤ v ∧ v ≤ 1.0 := by
  unfold brentq
  rw [if_neg hs, show (100 : ℕ) = 99 + 1 from rfl]
  exact bisect_converges g 99 0.001 1.0 (by norm_num) (by norm_num [brentXtol])

lemma implied_volatility_no_sign_change (option_price S K T r : ℝ) (ot : String)
    (hs : 0 < BlackScholesModel.iv_objective option_price S K T r ot 0.001 *
      BlackScholesModel.iv_objective option_price S K T r ot 5.0) :
    BlackScholesModel.implied_volatility option_price S K T r ot = .ok 0 := by
  unfold BlackScholesModel.implied_volatility brentq
  rw [if_pos hs]
  norm_num

lemma implied_volatility_total (option_price S K T r : ℝ) (ot : String) :
    ∃ v, BlackScholesModel.implied_volatility option_price S K T r ot = .ok v ∧
      (v = 0 ∨ (0.001 ≤ v ∧ v ≤ 5.0)) := by
  by_cases hs : 0 < BlackScholesModel.iv_objective option_price S K T r ot 0.001 *
      BlackScholesModel.iv_objective option_price S K T r ot 5.0
  · exact ⟨0, implied_volatility_no_sign_change option_price S K T r ot hs, Or.inl rfl⟩
  · obtain ⟨v, hv, h1, h2⟩ :=
      brentq_iv_bracket (BlackScholesModel.iv_objective option_price S K T r ot) hs
    refine ⟨v, ?_, Or.inr ⟨h1, h2⟩⟩
    unfold BlackScholesModel.implied_volatility
    rw [hv]

lemma bond_yield_no_sign_change (price face_value coupon_rate years_to_maturity : ℝ)
    (freq : ℕ)
    (hs : 0 < BondPricingModel.by_objective price face_value coupon_rate
        years_to_maturity freq 0.001 *
      BondPricingModel.by_objective price face_value coupon_rate years_to_maturity freq 1.0) :
    BondPricingModel.bond_yield price face_value coupon_rate years_to_maturity freq = .ok 0 := by
  unfold BondPricingModel.bond_yield brentq
  rw [if_pos hs]
  norm_num

lemma bond_yield_total (price face_value coupon_rate years_to_maturity : ℝ) (freq : ℕ) :
    ∃ v, BondPricingModel.bond_yield price face_value coupon_rate years_to_maturity freq =
      .ok v := by
  by_cases hs : 0 < BondPricingModel.by_objective price face_value coupon_rate
      years_to_maturity freq 0.001 *
    BondPricingModel.by_objective price face_value coupon_rate years_to_maturity freq 1.0
  · exact ⟨0, bond_yield_no_sign_change price face_value coupon_rate years_to_maturity freq hs⟩
  · obtain ⟨v, hv, _, _⟩ :=
      brentq_yield_bracket
        (BondPricingModel.by_objective price face_value coupon_rate years_to_maturity freq) hs
    refine ⟨v, ?_⟩
    unfold BondPricingModel.bond_yield
    rw [hv]

/-- C5: both bounded root finders always terminate with a value: a
same-sign bracket yields the sentinel `0.0` (scipy's `ValueError` caught),
the converging bisection yields the root approximation, and in exact real
arithmetic the 100-iteration budget always suffices on these brackets, so
the `runtimeError` outcome is unreachable and no exception escapes. -/
theorem c5_root_finders_never_crash (option_price S K T r : ℝ) (ot : String)
    (price face_value coupon_rate years_to_maturity : ℝ) (freq : ℕ) :
    (∃ v, BlackScholesModel.implied_volatility option_price S K T r ot = .ok v) ∧
    (0 < BlackScholesModel.iv_objective option_price S K T r ot 0.001 *
        BlackScholesModel.iv_objective option_price S K T r ot 5.0 →
      BlackScholesModel.implied_volatility option_price S K T r ot = .ok 0) ∧
    (∃ v, BondPricingModel.bond_yield price face_value coupon_rate
        years_to_maturity freq = .ok v) ∧
    (0 < BondPricingModel.by_objective price face_value coupon_rate
          years_to_maturity freq 0.001 *
        BondPricingModel.by_objective price face_value coupon_rate
          years_to_maturity freq 1.0 →
      BondPricingModel.bond_yield price face_value coupon_rate years_to_maturity freq =
        .ok 0) := by
  obtain ⟨v, hv, _⟩ := implied_volatility_total option_price S K T r ot
  refine ⟨⟨v, hv⟩, implied_volatility_no_sign_change option_price S K T r ot,
    bond_yield_total price face_value coupon_rate years_to_maturity freq,
    bond_yield_no_sign_change price face_value coupon_rate years_to_maturity freq⟩

lemma european_call_nonneg (S K T r sigma : ℝ) :
    0 ≤ BlackScholesModel.european_call S K T r sigma := by
  unfold BlackScholesModel.european_call
  split <;> exact le_max_right _ _

lemma iv_objective_neg_price_pos (sigma : ℝ) :
    0 < BlackScholesModel.iv_objective (-1) 1 1 1 0 "call" sigma := by
  unfold BlackScholesModel.iv_objective
  rw [if_pos lowerStr_call]
  linarith [european_call_nonneg 1 1 1 0 sigma]

lemma by_objective_neg_price_pos₁ :
    0 < BondPricingModel.by_objective (-1) 1 0 1 2 0.001 := by
  unfold BondPricingModel.by_objective BondPricingModel.bond_price
  norm_num

lemma by_objective_neg_price_pos₂ :
    0 < BondPricingModel.by_objective (-1) 1 0 1 2 1.0 := by
  unfold BondPricingModel.by_objective BondPricingModel.bond_price
  norm_num

/-- Witness for C5 at target prices `-1` (below both no-arbitrage bands, so
both brackets have no sign change). -/
theorem c5_root_finders_never_crash_witness :
    (∃ v, BlackScholesModel.implied_volatility (-1) 1 1 1 0 "call" = .ok v) ∧
    BlackScholesModel.implied_volatility (-1) 1 1 1 0 "call" = .ok 0 ∧
    (∃ v, BondPricingModel.bond_yield (-1) 1 0 1 2 = .ok v) ∧
    BondPricingModel.bond_yield (-1) 1 0 1 2 = .ok 0 := by
  obtain ⟨h1, h2, h3, h4⟩ := c5_root_finders_never_crash (-1) 1 1 1 0 "call" (-1) 1 0 1 2
  exact ⟨h1,
    h2 (mul_pos (iv_objective_neg_price_pos 0.001) (iv_objective_neg_price_pos 5.0)),
    h3,
    h4 (mul_pos by_objective_neg_price_pos₁ by_objective_neg_price_pos₂)⟩

/-- C10: the value returned by `implied_volatility` is either exactly `0.0`
(the failure sentinel, returned when the bracketed solver raises
`ValueError`) or lies in the search bracket `[0.001, 5.0]`; it is never
negative, never above `5.0`, and never strictly between `0` and `0.001`,
so failure is distinguishable by comparison against `0.0`. -/
theorem c10_iv_failure_sentinel_unambiguous (option_price S K T r : ℝ) (ot : String)
    (v : ℝ)
    (h : BlackScholesModel.implied_volatility option_price S K T r ot = .ok v) :
    v = 0 ∨ (0.001 ≤ v ∧ v ≤ 5.0) := by
  obtain ⟨w, hw, hcases⟩ := implied_volatility_total option_price S K T r ot
  rw [h] at hw
  injection hw with hw
  rw [hw]
  exact hcases

/-- Witness for C10 at the failing input (target price `-1`). -/
theorem c10_iv_failure_sentinel_unambiguous_witness :
    BlackScholesModel.implied_volatility (-1) 1 1 1 0 "call" = .ok 0 ∧
    ((0 : ℝ) = 0 ∨ ((0.001 : ℝ) ≤ 0 ∧ (0 : ℝ) ≤ 5.0)) := by
  have hs := implied_volatility_no_sign_change (-1) 1 1 1 0 "call"
    (mul_pos (iv_objective_neg_price_pos 0.001) (iv_objective_neg_price_pos 5.0))
  exact ⟨hs, c10_iv_failure_sentinel_unambiguous (-1) 1 1 1 0 "call" 0 hs⟩

/-! ## C7: duration bounds -/

/-- C7 counterexample: with `yield = 0` (allowed by the claim, which
constrains only `face`, `coupon`, `years` and `frequency`) the modified
duration equals the Macaulay duration, so the claimed strict inequality
`modifiedDuration < macaulayDuration` fails: at
`face = 100, coupon = 0.1, yield = 0, years = 1, frequency = 1` both
durations are `1`. -/
theorem c7_counterexample_zero_yield :
    ¬ ((BondPricingModel.duration 100 (1 / 10) 0 1 1).modified_duration <
       (BondPricingModel.duration 100 (1 / 10) 0 1 1).macaulay_duration) := by
  norm_num [BondPricingModel.duration, Finset.Icc_self, Finset.sum_singleton]

/-- C7 (amended): the duration bounds hold with the two hypotheses the
counterexample forces: the yield must be strictly positive (at yield `0`
the two durations coincide) and there must be at least one coupon period
(`1 ≤ ⌊years·frequency⌋`; otherwise the routine divides `0/0`).  Then
`0 < modifiedDuration < macaulayDuration ≤ yearsToMaturity`. -/
theorem c7_duration_bounds (face coupon y years : ℝ) (freq : ℕ)
    (hface : 0 < face) (hc : 0 ≤ coupon) (hy : 0 < y) (hyears : 0 < years)
    (hfreq : freq = 1 ∨ freq = 2 ∨ freq = 4 ∨ freq = 12)
    (hper : 1 ≤ ⌊years * (freq : ℝ)⌋₊) :
    0 < (BondPricingModel.duration face coupon y years freq).modified_duration ∧
    (BondPricingModel.duration face coupon y years freq).modified_duration <
      (BondPricingModel.duration face coupon y years freq).macaulay_duration ∧
    (BondPricingModel.duration face coupon y years freq).macaulay_duration ≤ years := by
  have hfreq1 : 1 ≤ freq := by rcases hfreq with h | h | h | h <;> omega
  have hfR : (0 : ℝ) < freq := by
    have : (1 : ℝ) ≤ freq := by exact_mod_cast hfreq1
    linarith
  simp only [BondPricingModel.duration]
  set n := ⌊years * (freq : ℝ)⌋₊ with hn
  set py := y / (freq : ℝ) with hpydef
  set cp := face * coupon / (freq : ℝ) with hcpdef
  have hpy : 0 < py := div_pos hy hfR
  have hcp : 0 ≤ cp := by positivity
  have hbase : (0 : ℝ) < 1 + py := by linarith
  have hpv_nonneg : ∀ t ∈ Finset.Icc 1 n,
      0 ≤ (if t = n then cp + face else cp) / (1 + py) ^ t := by
    intro t _
    apply div_nonneg _ (by positivity)
    split <;> linarith
  have hmem : n ∈ Finset.Icc 1 n := Finset.mem_Icc.2 ⟨hper, le_refl n⟩
  have hpvn_pos : 0 < (if n = n then cp + face else cp) / (1 + py) ^ n := by
    rw [if_pos rfl]
    positivity
  have hS1 : 0 < ∑ t in Finset.Icc 1 n, (if t = n then cp + face else cp) / (1 + py) ^ t :=
    Finset.sum_pos' hpv_nonneg ⟨n, hmem, hpvn_pos⟩
  have hS2 : 0 < ∑ t in Finset.Icc 1 n,
      (if t = n then cp + face else cp) / (1 + py) ^ t * t / freq := by
    refine Finset.sum_pos' (fun t ht => by
      have := hpv_nonneg t ht
      positivity) ⟨n, hmem, ?_⟩
    have hn1 : (0 : ℝ) < n := by
      have : (1 : ℝ) ≤ n := by exact_mod_cast hper
      linarith
    rw [if_pos rfl]
    positivity
  have hmac_pos : 0 < (∑ t in Finset.Icc 1 n,
      (if t = n then cp + face else cp) / (1 + py) ^ t * t / freq) /
      ∑ t in Finset.Icc 1 n, (if t = n then cp + face else cp) / (1 + py) ^ t :=
    div_pos hS2 hS1
  refine ⟨div_pos hmac_pos (by linarith), div_lt_self hmac_pos (by linarith), ?_⟩
  have hstep : (∑ t in Finset.Icc 1 n,
      (if t = n then cp + face else cp) / (1 + py) ^ t * t / freq) ≤
      (∑ t in Finset.Icc 1 n, (if t = n then cp + face else cp) / (1 + py) ^ t) *
        ((n : ℝ) / freq) := by
    calc (∑ t in Finset.Icc 1 n,
        (if t = n then cp + face else cp) / (1 + py) ^ t * t / freq)
        ≤ ∑ t in Finset.Icc 1 n,
          (if t = n then cp + face else cp) / (1 + py) ^ t * n / freq := by
          apply Finset.sum_le_sum
          intro t ht
          have htn : (t : ℝ) ≤ n := by exact_mod_cast (Finset.mem_Icc.1 ht).2
          gcongr
      _ = (∑ t in Finset.Icc 1 n,
          (if t = n then cp + face else cp) / (1 + py) ^ t) * ((n : ℝ) / freq) := by
          rw [← Finset.sum_div, ← Finset.sum_mul, mul_div_assoc]
  have hnf : (n : ℝ) / freq ≤ years := by
    have hfl : (n : ℝ) ≤ years * freq := Nat.floor_le (by positivity)
    rw [div_le_iff₀ hfR]
    linarith
  calc (∑ t in Finset.Icc 1 n,
      (if t = n then cp + face else cp) / (1 + py) ^ t * t / freq) /
      ∑ t in Finset.Icc 1 n, (if t = n then cp + face else cp) / (1 + py) ^ t
      ≤ (n : ℝ) / freq := by
        rw [div_le_iff₀ hS1]
        calc _ ≤ (∑ t in Finset.Icc 1 n,
            (if t = n then cp + face else cp) / (1 + py) ^ t) * ((n : ℝ) / freq) := hstep
        _ = (n : ℝ) / freq * ∑ t in Finset.Icc 1 n,
            (if t = n then cp + face else cp) / (1 + py) ^ t := by ring
    _ ≤ years := hnf

/-- Witness for C7 at `face = 100, coupon = 0.1, yield = 0.1, years = 1,
frequency = 1`. -/
theorem c7_duration_bounds_witness :
    1 ≤ ⌊(1 : ℝ) * ((1 : ℕ) : ℝ)⌋₊ ∧
    (0 < (BondPricingModel.duration 100 (1 / 10) (1 / 10) 1 1).modified_duration ∧
     (BondPricingModel.duration 100 (1 / 10) (1 / 10) 1 1).modified_duration <
       (BondPricingModel.duration 100 (1 / 10) (1 / 10) 1 1).macaulay_duration ∧
     (BondPricingModel.duration 100 (1 / 10) (1 / 10) 1 1).macaulay_duration ≤ 1) :=
  ⟨by norm_num,
   c7_duration_bounds 100 (1 / 10) (1 / 10) 1 1 (by norm_num) (by norm_num)
     (by norm_num) (by norm_num) (Or.inl rfl) (by norm_num)⟩

/-! ## C2: American versus European lattice prices -/

lemma amerNode_ge_euroNode (pay : ℝ → ℝ) (u d disc p : ℝ)
    (hdisc : 0 ≤ disc) (hp0 : 0 ≤ p) (hp1 : p ≤ 1) :
    ∀ (n : ℕ) (s : ℝ), BinomialTreeModel.euroNode pay u d disc p n s ≤
      BinomialTreeModel.amerNode pay u d disc p n s := by
  intro n
  induction n with
  | zero => intro s; exact le_refl _
  | succ n ih =>
    intro s
    refine le_trans ?_ (le_max_left _ _)
    simp only [BinomialTreeModel.euroNode]
    refine mul_le_mul_of_nonneg_left (add_le_add ?_ ?_) hdisc
    · exact mul_le_mul_of_nonneg_left (ih _) hp0
    · exact mul_le_mul_of_nonneg_left (ih _) (by linarith)

lemma euroNode_nonneg (pay : ℝ → ℝ) (u d disc p : ℝ)
    (hpay : ∀ s, 0 ≤ pay s) (hdisc : 0 ≤ disc) (hp0 : 0 ≤ p) (hp1 : p ≤ 1) :
    ∀ (n : ℕ) (s : ℝ), 0 ≤ BinomialTreeModel.euroNode pay u d disc p n s := by
  intro n
  induction n with
  | zero => intro s; exact hpay s
  | succ n ih =>
    intro s
    simp only [BinomialTreeModel.euroNode]
    have h1 : 0 ≤ p * BinomialTreeModel.euroNode pay u d disc p n (s * u) :=
      mul_nonneg hp0 (ih _)
    have h2 : 0 ≤ (1 - p) * BinomialTreeModel.euroNode pay u d disc p n (s * d) :=
      mul_nonneg (by linarith) (ih _)
    have := add_nonneg h1 h2
    exact mul_nonneg hdisc this

lemma euroNode_call_ge_payoff (K u d disc p : ℝ) (hK : 0 ≤ K)
    (hdisc_pos : 0 < disc) (hdisc1 : disc ≤ 1) (hp0 : 0 ≤ p) (hp1 : p ≤ 1)
    (hmart : disc * (p * u + (1 - p) * d) = 1) :
    ∀ (n : ℕ) (s : ℝ), max (s - K) 0 ≤
      BinomialTreeModel.euroNode (fun x => max (x - K) 0) u d disc p n s := by
  intro n
  induction n with
  | zero => intro s; exact le_refl _
  | succ n ih =>
    intro s
    apply max_le
    · have hu1 : s * u - K ≤ BinomialTreeModel.euroNode (fun x => max (x - K) 0)
          u d disc p n (s * u) := le_trans (le_max_left _ _) (ih (s * u))
      have hd1 : s * d - K ≤ BinomialTreeModel.euroNode (fun x => max (x - K) 0)
          u d disc p n (s * d) := le_trans (le_max_left _ _) (ih (s * d))
      simp only [BinomialTreeModel.euroNode]
      have key : disc * (p * (s * u - K) + (1 - p) * (s * d - K)) = s - K * disc := by
        have h1 : p * (s * u - K) + (1 - p) * (s * d - K) =
            s * (p * u + (1 - p) * d) - K := by ring
        have h2 : disc * (s * (p * u + (1 - p) * d) - K) =
            s * (disc * (p * u + (1 - p) * d)) - K * disc := by ring
        rw [h1, h2, hmart, mul_one]
      have step : disc * (p * (s * u - K) + (1 - p) * (s * d - K)) ≤
          disc * (p * BinomialTreeModel.euroNode (fun x => max (x - K) 0) u d disc p n (s * u) +
            (1 - p) * BinomialTreeModel.euroNode (fun x => max (x - K) 0) u d disc p n (s * d)) := by
        refine mul_le_mul_of_nonneg_left (add_le_add ?_ ?_) hdisc_pos.le
        · exact mul_le_mul_of_nonneg_left hu1 hp0
        · exact mul_le_mul_of_nonneg_left hd1 (by linarith)
      have hKdisc : K * disc ≤ K := mul_le_of_le_one_right hK hdisc1
      rw [key] at step
      linarith
    · exact euroNode_nonneg _ u d disc p (fun s => le_max_right _ _) hdisc_pos.le hp0 hp1 _ s

lemma amerNode_eq_euroNode_of_pay_le (pay : ℝ → ℝ) (u d disc p : ℝ)
    (hle : ∀ (n : ℕ) (s : ℝ), pay s ≤ BinomialTreeModel.euroNode pay u d disc p n s) :
    ∀ (n : ℕ) (s : ℝ), BinomialTreeModel.amerNode pay u d disc p n s =
      BinomialTreeModel.euroNode pay u d disc p n s := by
  intro n
  induction n with
  | zero => intro s; rfl
  | succ n ih =>
    intro s
    simp only [BinomialTreeModel.amerNode, BinomialTreeModel.euroNode]
    rw [ih (s * u), ih (s * d)]
    exact max_eq_left (hle (n + 1) s)

/-- C2 counterexample: the claim fails outside the regime where the
risk-neutral weight `p` lies in `[0,1]`.  With
`S=100, K=60, T=2, r=log 4, sigma=log 2, steps=2` (so `u=2, d=1/2, p=7/3`),
the American put is worth `0` while the European put is worth `35/9`,
refuting `american ≥ european`; and with
`S=4, K=1, T=1, r=-log 2, sigma=log 2, steps=1` (so `p=0 ∈ [0,1]` but
`r<0`) the American call is `3` while the European call is `2`, refuting
the claimed equality for calls. -/
theorem c2_counterexample :
    BinomialTreeModel.american_option 100 60 2 (Real.log 4) (Real.log 2) 2 "put" <
      BinomialTreeModel.european_option 100 60 2 (Real.log 4) (Real.log 2) 2 "put" ∧
    BinomialTreeModel.american_option 4 1 1 (-Real.log 2) (Real.log 2) 1 "call" ≠
      BinomialTreeModel.european_option 4 1 1 (-Real.log 2) (Real.log 2) 1 "call" := by
  have hput : (lowerStr "put" = "call") = False := by
    simp only [eq_iff_iff, iff_false]
    decide
  have hcall : (lowerStr "call" = "call") = True := by
    simp only [eq_iff_iff, iff_true]
    decide
  have h2 : Real.exp (Real.log 2) = 2 := Real.exp_log (by norm_num)
  have h4 : Real.exp (Real.log 4) = 4 := Real.exp_log (by norm_num)
  have hs2 : Real.sqrt ((2 : ℝ) / (2 : ℕ)) = 1 := by norm_num [Real.sqrt_one]
  have hs1 : Real.sqrt ((1 : ℝ) / (1 : ℕ)) = 1 := by norm_num [Real.sqrt_one]
  constructor
  · have hA : BinomialTreeModel.american_option 100 60 2 (Real.log 4) (Real.log 2) 2 "put"
        = 0 := by
      norm_num [BinomialTreeModel.american_option, BinomialTreeModel.amerNode,
        BinomialTreeModel.payoff, hput, hs2, h2, h4, Real.exp_neg]
    have hE : BinomialTreeModel.european_option 100 60 2 (Real.log 4) (Real.log 2) 2 "put"
        = 35 / 9 := by
      norm_num [BinomialTreeModel.european_option, BinomialTreeModel.euroNode,
        BinomialTreeModel.payoff, hput, hs2, h2, h4, Real.exp_neg]
    rw [hA, hE]
    norm_num
  · have hA : BinomialTreeModel.american_option 4 1 1 (-Real.log 2) (Real.log 2) 1 "call"
        = 3 := by
      norm_num [BinomialTreeModel.american_option, BinomialTreeModel.amerNode,
        BinomialTreeModel.payoff, hcall, hs1, h2, Real.exp_neg]
    have hE : BinomialTreeModel.european_option 4 1 1 (-Real.log 2) (Real.log 2) 1 "call"
        = 2 := by
      norm_num [BinomialTreeModel.european_option, BinomialTreeModel.euroNode,
        BinomialTreeModel.payoff, hcall, hs1, h2, Real.exp_neg]
    rw [hA, hE]
    norm_num

/-- C2 (amended): under the CRR parameters the early-exercise inequality
`american ≥ european` holds whenever the risk-neutral weight lies in
`[0,1]`, i.e. `d ≤ e^{r·dt} ≤ u` (the counterexample shows it fails
otherwise); and for calls it is an equality when additionally `r ≥ 0`
(the counterexample shows `r < 0` breaks it on this non-dividend-paying
underlying). -/
theorem c2_amended (S K T r sigma : ℝ) (steps : ℕ) (ot : String)
    (hK : 0 < K) (hT : 0 < T) (hsig : 0 < sigma) (hsteps : 1 ≤ steps)
    (hp0 : Real.exp (-(sigma * Real.sqrt (T / steps))) ≤ Real.exp (r * (T / steps)))
    (hp1 : Real.exp (r * (T / steps)) ≤ Real.exp (sigma * Real.sqrt (T / steps))) :
    BinomialTreeModel.european_option S K T r sigma steps ot ≤
      BinomialTreeModel.american_option S K T r sigma steps ot ∧
    (lowerStr ot = "call" → 0 ≤ r →
      BinomialTreeModel.american_option S K T r sigma steps ot =
        BinomialTreeModel.european_option S K T r sigma steps ot) := by
  have hstepsR : (0 : ℝ) < steps := by
    have : (1 : ℝ) ≤ steps := by exact_mod_cast hsteps
    linarith
  have hdt : 0 < T / (steps : ℝ) := div_pos hT hstepsR
  have hx : 0 < sigma * Real.sqrt (T / steps) := mul_pos hsig (Real.sqrt_pos.2 hdt)
  have huexp : Real.exp (-(sigma * Real.sqrt (T / steps))) =
      1 / Real.exp (sigma * Real.sqrt (T / steps)) := by
    rw [Real.exp_neg, one_div]
  have hu1 : 1 < Real.exp (sigma * Real.sqrt (T / steps)) := by
    rw [show (1 : ℝ) = Real.exp 0 from (Real.exp_zero).symm]
    exact Real.exp_lt_exp.2 hx
  have hd1 : 1 / Real.exp (sigma * Real.sqrt (T / steps)) < 1 := by
    rw [← huexp, show (1 : ℝ) = Real.exp 0 from (Real.exp_zero).symm]
    exact Real.exp_lt_exp.2 (by linarith)
  have hdpos : 0 < 1 / Real.exp (sigma * Real.sqrt (T / steps)) := by
    rw [← huexp]
    exact Real.exp_pos _
  have hud : 1 / Real.exp (sigma * Real.sqrt (T / steps)) <
      Real.exp (sigma * Real.sqrt (T / steps)) := lt_trans hd1 hu1
  have hne : Real.exp (sigma * Real.sqrt (T / steps)) -
      1 / Real.exp (sigma * Real.sqrt (T / steps)) ≠ 0 := by linarith
  have hp0R : 0 ≤ (Real.exp (r * (T / steps)) -
      1 / Real.exp (sigma * Real.sqrt (T / steps))) /
      (Real.exp (sigma * Real.sqrt (T / steps)) -
        1 / Real.exp (sigma * Real.sqrt (T / steps))) := by
    apply div_nonneg _ (by linarith)
    rw [← huexp]
    linarith
  have hp1R : (Real.exp (r * (T / steps)) -
      1 / Real.exp (sigma * Real.sqrt (T / steps))) /
      (Real.exp (sigma * Real.sqrt (T / steps)) -
        1 / Real.exp (sigma * Real.sqrt (T / steps))) ≤ 1 := by
    rw [div_le_one (by linarith)]
    linarith
  have hsum : (Real.exp (r * (T / steps)) -
        1 / Real.exp (sigma * Real.sqrt (T / steps))) /
      (Real.exp (sigma * Real.sqrt (T / steps)) -
        1 / Real.exp (sigma * Real.sqrt (T / steps))) *
        Real.exp (sigma * Real.sqrt (T / steps)) +
      (1 - (Real.exp (r * (T / steps)) -
        1 / Real.exp (sigma * Real.sqrt (T / steps))) /
      (Real.exp (sigma * Real.sqrt (T / steps)) -
        1 / Real.exp (sigma * Real.sqrt (T / steps)))) *
        (1 / Real.exp (sigma * Real.sqrt (T / steps))) =
      Real.exp (r * (T / steps)) := by
    have hgen : ∀ eR uu dd : ℝ, uu - dd ≠ 0 →
        (eR - dd) / (uu - dd) * uu + (1 - (eR - dd) / (uu - dd)) * dd = eR := by
      intro eR uu dd h
      have h1 : (eR - dd) / (uu - dd) * uu + (1 - (eR - dd) / (uu - dd)) * dd =
          (eR - dd) / (uu - dd) * (uu - dd) + dd := by ring
      rw [h1, div_mul_cancel₀ _ h]
      ring
    exact hgen _ _ _ hne
  have hmart : Real.exp (-r * (T / steps)) *
      ((Real.exp (r * (T / steps)) -
        1 / Real.exp (sigma * Real.sqrt (T / steps))) /
      (Real.exp (sigma * Real.sqrt (T / steps)) -
        1 / Real.exp (sigma * Real.sqrt (T / steps))) *
        Real.exp (sigma * Real.sqrt (T / steps)) +
      (1 - (Real.exp (r * (T / steps)) -
        1 / Real.exp (sigma * Real.sqrt (T / steps))) /
      (Real.exp (sigma * Real.sqrt (T / steps)) -
        1 / Real.exp (sigma * Real.sqrt (T / steps)))) *
        (1 / Real.exp (sigma * Real.sqrt (T / steps)))) = 1 := by
    rw [hsum, ← Real.exp_add, show -r * (T / steps) + r * (T / steps) = 0 by ring,
      Real.exp_zero]
  constructor
  · simp only [BinomialTreeModel.european_option, BinomialTreeModel.american_option]
    exact amerNode_ge_euroNode _ _ _ _ _ (Real.exp_pos _).le hp0R hp1R steps S
  · intro hcall hr
    have hpayeq : BinomialTreeModel.payoff ot K = fun x => max (x - K) 0 := by
      funext z
      unfold BinomialTreeModel.payoff
      rw [if_pos hcall]
    have hdisc1 : Real.exp (-r * (T / steps)) ≤ 1 := by
      rw [show (1 : ℝ) = Real.exp 0 from (Real.exp_zero).symm]
      apply Real.exp_le_exp.2
      have : 0 ≤ r * (T / steps) := mul_nonneg hr hdt.le
      linarith
    simp only [BinomialTreeModel.european_option, BinomialTreeModel.american_option]
    rw [hpayeq]
    exact amerNode_eq_euroNode_of_pay_le _ _ _ _ _
      (euroNode_call_ge_payoff K _ _ _ _ hK.le (Real.exp_pos _) hdisc1 hp0R hp1R hmart)
      steps S

/-- Witness for C2 (amended) at
`S=4, K=1, T=1, r=0, sigma=log 2, steps=1, call`. -/
theorem c2_amended_witness :
    Real.exp (-(Real.log 2 * Real.sqrt ((1 : ℝ) / (1 : ℕ)))) ≤
      Real.exp (0 * ((1 : ℝ) / (1 : ℕ))) ∧
    Real.exp (0 * ((1 : ℝ) / (1 : ℕ))) ≤
      Real.exp (Real.log 2 * Real.sqrt ((1 : ℝ) / (1 : ℕ))) ∧
    (BinomialTreeModel.european_option 4 1 1 0 (Real.log 2) 1 "call" ≤
      BinomialTreeModel.american_option 4 1 1 0 (Real.log 2) 1 "call" ∧
     (lowerStr "call" = "call" → (0 : ℝ) ≤ 0 →
       BinomialTreeModel.american_option 4 1 1 0 (Real.log 2) 1 "call" =
         BinomialTreeModel.european_option 4 1 1 0 (Real.log 2) 1 "call")) := by
  have hlog : (0 : ℝ) ≤ Real.log 2 := Real.log_nonneg (by norm_num)
  have hp0 : Real.exp (-(Real.log 2 * Real.sqrt ((1 : ℝ) / (1 : ℕ)))) ≤
      Real.exp (0 * ((1 : ℝ) / (1 : ℕ))) := by
    apply Real.exp_le_exp.2
    have hs : Real.sqrt ((1 : ℝ) / (1 : ℕ)) = 1 := by norm_num [Real.sqrt_one]
    rw [hs]
    nlinarith
  have hp1 : Real.exp (0 * ((1 : ℝ) / (1 : ℕ))) ≤
      Real.exp (Real.log 2 * Real.sqrt ((1 : ℝ) / (1 : ℕ))) := by
    apply Real.exp_le_exp.2
    have hs : Real.sqrt ((1 : ℝ) / (1 : ℕ)) = 1 := by norm_num [Real.sqrt_one]
    rw [hs]
    nlinarith
  exact ⟨hp0, hp1, c2_amended 4 1 1 0 (Real.log 2) 1 "call" (by norm_num) (by norm_num)
    (by positivity) (le_refl 1) hp0 hp1⟩

/-! ## C1: put-call parity

The closed forms use the standard normal CDF; parity follows from
`normCdf x + normCdf (-x) = 1`, and the zero floors never bite because both
raw prices are nonnegative — a consequence of the two translation
inequalities `normCdf_shift_lower` / `normCdf_shift_upper` below, which
compare the integrand of the shifted CDF pointwise on `Iic x`. -/

lemma sqrt_two_pi_pos : 0 < Real.sqrt (2 * Real.pi) :=
  Real.sqrt_pos.2 (by positivity)

lemma gaussPdf_pos (t : ℝ) : 0 < gaussPdf t :=
  mul_pos (inv_pos.2 sqrt_two_pi_pos) (Real.exp_pos _)

lemma gaussPdf_eq (t : ℝ) :
    gaussPdf t = (Real.sqrt (2 * Real.pi))⁻¹ * Real.exp (-(1 / 2) * t ^ 2) := by
  unfold gaussPdf
  congr 2
  ring

lemma gaussPdf_integrable : Integrable gaussPdf := by
  have h : Integrable fun t : ℝ => Real.exp (-(1 / 2) * t ^ 2) :=
    integrable_exp_neg_mul_sq (by norm_num)
  have h2 := h.const_mul (Real.sqrt (2 * Real.pi))⁻¹
  refine h2.congr ?_
  filter_upwards with t
  rw [gaussPdf_eq]

lemma gaussPdf_integral : ∫ t, gaussPdf t = 1 := by
  have h : ∫ t : ℝ, Real.exp (-(1 / 2) * t ^ 2) = Real.sqrt (Real.pi / (1 / 2)) :=
    integral_gaussian (1 / 2)
  have heq : ∫ t, gaussPdf t =
      (Real.sqrt (2 * Real.pi))⁻¹ * ∫ t : ℝ, Real.exp (-(1 / 2) * t ^ 2) := by
    rw [← integral_mul_left]
    apply integral_congr_ae
    filter_upwards with t
    rw [gaussPdf_eq]
  rw [heq, h, show Real.pi / (1 / 2) = 2 * Real.pi by ring]
  exact inv_mul_cancel₀ (ne_of_gt sqrt_two_pi_pos)

lemma gaussPdf_even (t : ℝ) : gaussPdf (-t) = gaussPdf t := by
  unfold gaussPdf
  rw [neg_sq]

lemma normCdf_nonneg (x : ℝ) : 0 ≤ normCdf x :=
  setIntegral_nonneg measurableSet_Iic fun t _ => (gaussPdf_pos t).le

lemma normCdf_add_neg (x : ℝ) : normCdf x + normCdf (-x) = 1 := by
  have h1 : normCdf (-x) = ∫ t in Set.Ioi x, gaussPdf t := by
    calc normCdf (-x) = ∫ t in Set.Iic (-x), gaussPdf t := rfl
    _ = ∫ t in Set.Iic (-x), gaussPdf (-t) := by
        apply setIntegral_congr_fun measurableSet_Iic
        intro t _
        exact (gaussPdf_even t).symm
    _ = ∫ t in Set.Ioi (- -x), gaussPdf t := integral_comp_neg_Iic (-x) gaussPdf
    _ = ∫ t in Set.Ioi x, gaussPdf t := by rw [neg_neg]
  rw [h1]
  calc (∫ t in Set.Iic x, gaussPdf t) + ∫ t in Set.Ioi x, gaussPdf t
      = ∫ t, gaussPdf t :=
        intervalIntegral.integral_Iic_add_Ioi gaussPdf_integrable.integrableOn
          gaussPdf_integrable.integrableOn
  _ = 1 := gaussPdf_integral

lemma preimage_addRight_Iic (x a : ℝ) :
    Set.preimage (fun u : ℝ => u + a) (Set.Iic (x + a)) = Set.Iic x := by
  ext u
  simp [Set.mem_preimage, Set.mem_Iic]

lemma normCdf_shift (x a : ℝ) :
    normCdf (x + a) = ∫ u in Set.Iic x, gaussPdf (u + a) := by
  have emb : MeasurableEmbedding fun u : ℝ => u + a :=
    (Homeomorph.addRight a).isClosedEmbedding.measurableEmbedding
  have h1 : normCdf (x + a)
      = ∫ t in Set.Iic (x + a), gaussPdf t ∂(Measure.map (fun u : ℝ => u + a) volume) := by
    rw [map_add_right_eq_self volume a]
    rfl
  rw [h1, emb.setIntegral_map gaussPdf (Set.Iic (x + a)), preimage_addRight_Iic]

lemma gaussPdf_shift (u a : ℝ) :
    gaussPdf (u + a) = gaussPdf u * Real.exp (-(a * u) - a ^ 2 / 2) := by
  unfold gaussPdf
  rw [mul_assoc, ← Real.exp_add]
  congr 2
  ring

lemma integrable_gaussPdf_shift (a : ℝ) : Integrable fun u : ℝ => gaussPdf (u + a) := by
  have emb : MeasurableEmbedding fun u : ℝ => u + a :=
    (Homeomorph.addRight a).isClosedEmbedding.measurableEmbedding
  have mp : MeasurePreserving (fun u : ℝ => u + a) volume volume :=
    measurePreserving_add_right volume a
  have h := (mp.integrable_comp_emb emb).2 gaussPdf_integrable
  simpa [Function.comp] using h

lemma normCdf_shift_lower (a x : ℝ) (ha : 0 ≤ a) :
    Real.exp (-(a * x) - a ^ 2 / 2) * normCdf x ≤ normCdf (x + a) := by
  rw [normCdf_shift]
  have h1 : ∀ u ∈ Set.Iic x,
      Real.exp (-(a * x) - a ^ 2 / 2) * gaussPdf u ≤ gaussPdf (u + a) := by
    intro u hu
    rw [gaussPdf_shift, mul_comm]
    apply mul_le_mul_of_nonneg_left _ (gaussPdf_pos u).le
    apply Real.exp_le_exp.2
    have h2 : a * u ≤ a * x := mul_le_mul_of_nonneg_left hu ha
    linarith
  calc Real.exp (-(a * x) - a ^ 2 / 2) * normCdf x
      = ∫ u in Set.Iic x, Real.exp (-(a * x) - a ^ 2 / 2) * gaussPdf u := by
        rw [integral_mul_left]
        rfl
  _ ≤ ∫ u in Set.Iic x, gaussPdf (u + a) :=
      setIntegral_mono_on ((gaussPdf_integrable.integrableOn).const_mul _)
        (integrable_gaussPdf_shift a).integrableOn measurableSet_Iic h1

lemma normCdf_shift_upper (a x : ℝ) (ha : 0 ≤ a) :
    normCdf x ≤ Real.exp (a * x + a ^ 2 / 2) * normCdf (x + a) := by
  rw [normCdf_shift, ← integral_mul_left]
  have h1 : ∀ u ∈ Set.Iic x,
      gaussPdf u ≤ Real.exp (a * x + a ^ 2 / 2) * gaussPdf (u + a) := by
    intro u hu
    rw [gaussPdf_shift]
    have hcomb : Real.exp (a * x + a ^ 2 / 2) *
        (gaussPdf u * Real.exp (-(a * u) - a ^ 2 / 2))
        = gaussPdf u * Real.exp (a * (x - u)) := by
      rw [mul_comm (Real.exp _) _, mul_assoc, ← Real.exp_add]
      congr 2
      ring
    rw [hcomb]
    nth_rewrite 1 [← mul_one (gaussPdf u)]
    apply mul_le_mul_of_nonneg_left _ (gaussPdf_pos u).le
    rw [← Real.exp_zero]
    apply Real.exp_le_exp.2
    have hxu : u ≤ x := hu
    have h3 := mul_nonneg ha (sub_nonneg.2 hxu)
    linarith
  exact setIntegral_mono_on gaussPdf_integrable.integrableOn
    (((integrable_gaussPdf_shift a).const_mul _).integrableOn) measurableSet_Iic h1

lemma bs_m_identity (S K T r sigma : ℝ) (hT : 0 < T) (hsig : 0 < sigma) :
    sigma * Real.sqrt T *
      BlackScholesModel.d2 (BlackScholesModel.d1 S K T r sigma) sigma T +
      (sigma * Real.sqrt T) ^ 2 / 2 = Real.log (S / K) + r * T := by
  have ha : sigma * Real.sqrt T ≠ 0 := ne_of_gt (mul_pos hsig (Real.sqrt_pos.2 hT))
  have h1 : sigma * Real.sqrt T *
      ((Real.log (S / K) + (r + 0.5 * sigma ^ 2) * T) / (sigma * Real.sqrt T)) =
      Real.log (S / K) + (r + 0.5 * sigma ^ 2) * T := by
    rw [mul_comm, div_mul_cancel₀ _ ha]
  have h3 : sigma * Real.sqrt T * (sigma * Real.sqrt T) = sigma ^ 2 * T := by
    rw [show sigma * Real.sqrt T * (sigma * Real.sqrt T) =
      sigma ^ 2 * (Real.sqrt T * Real.sqrt T) by ring, Real.mul_self_sqrt hT.le]
  have h4 : (sigma * Real.sqrt T) ^ 2 = sigma ^ 2 * T := by
    rw [pow_two]
    exact h3
  unfold BlackScholesModel.d2 BlackScholesModel.d1
  rw [mul_sub, h1, h3, h4]
  ring_nf

lemma Ke_exp_m (S K T r : ℝ) (hS : 0 < S) (hK : 0 < K) :
    K * Real.exp (-r * T) * Real.exp (Real.log (S / K) + r * T) = S := by
  rw [Real.exp_add, Real.exp_log (div_pos hS hK), neg_mul, Real.exp_neg]
  field_simp
  ring

lemma bs_call_raw_nonneg (S K T r sigma : ℝ) (hS : 0 < S) (hK : 0 < K) (hT : 0 < T)
    (hsig : 0 < sigma) :
    K * Real.exp (-r * T) *
      normCdf (BlackScholesModel.d2 (BlackScholesModel.d1 S K T r sigma) sigma T) ≤
      S * normCdf (BlackScholesModel.d1 S K T r sigma) := by
  have ha : 0 < sigma * Real.sqrt T := mul_pos hsig (Real.sqrt_pos.2 hT)
  have hx1 : BlackScholesModel.d2 (BlackScholesModel.d1 S K T r sigma) sigma T +
      sigma * Real.sqrt T = BlackScholesModel.d1 S K T r sigma := by
    unfold BlackScholesModel.d2
    ring
  have hkey := normCdf_shift_upper (sigma * Real.sqrt T)
    (BlackScholesModel.d2 (BlackScholesModel.d1 S K T r sigma) sigma T) ha.le
  rw [hx1, bs_m_identity S K T r sigma hT hsig] at hkey
  have hc : 0 ≤ K * Real.exp (-r * T) := (mul_pos hK (Real.exp_pos _)).le
  calc K * Real.exp (-r * T) *
      normCdf (BlackScholesModel.d2 (BlackScholesModel.d1 S K T r sigma) sigma T)
      ≤ K * Real.exp (-r * T) * (Real.exp (Real.log (S / K) + r * T) *
        normCdf (BlackScholesModel.d1 S K T r sigma)) :=
        mul_le_mul_of_nonneg_left hkey hc
  _ = K * Real.exp (-r * T) * Real.exp (Real.log (S / K) + r * T) *
        normCdf (BlackScholesModel.d1 S K T r sigma) := by ring
  _ = S * normCdf (BlackScholesModel.d1 S K T r sigma) := by
        rw [Ke_exp_m S K T r hS hK]

lemma bs_put_raw_nonneg (S K T r sigma : ℝ) (hS : 0 < S) (hK : 0 < K) (hT : 0 < T)
    (hsig : 0 < sigma) :
    S * normCdf (-(BlackScholesModel.d1 S K T r sigma)) ≤
      K * Real.exp (-r * T) *
        normCdf (-(BlackScholesModel.d2 (BlackScholesModel.d1 S K T r sigma) sigma T)) := by
  have ha : 0 < sigma * Real.sqrt T := mul_pos hsig (Real.sqrt_pos.2 hT)
  have hkey := normCdf_shift_lower (sigma * Real.sqrt T)
    (-(BlackScholesModel.d1 S K T r sigma)) ha.le
  have hx1 : -(BlackScholesModel.d1 S K T r sigma) + sigma * Real.sqrt T =
      -(BlackScholesModel.d2 (BlackScholesModel.d1 S K T r sigma) sigma T) := by
    unfold BlackScholesModel.d2
    ring
  rw [hx1] at hkey
  have hmrw : -(sigma * Real.sqrt T * -(BlackScholesModel.d1 S K T r sigma)) -
      (sigma * Real.sqrt T) ^ 2 / 2 = Real.log (S / K) + r * T := by
    rw [← bs_m_identity S K T r sigma hT hsig]
    unfold BlackScholesModel.d2
    ring
  rw [hmrw] at hkey
  have hc : 0 ≤ K * Real.exp (-r * T) := (mul_pos hK (Real.exp_pos _)).le
  calc S * normCdf (-(BlackScholesModel.d1 S K T r sigma))
      = K * Real.exp (-r * T) * Real.exp (Real.log (S / K) + r * T) *
        normCdf (-(BlackScholesModel.d1 S K T r sigma)) := by
        rw [Ke_exp_m S K T r hS hK]
  _ = K * Real.exp (-r * T) * (Real.exp (Real.log (S / K) + r * T) *
        normCdf (-(BlackScholesModel.d1 S K T r sigma))) := by ring
  _ ≤ K * Real.exp (-r * T) *
        normCdf (-(BlackScholesModel.d2 (BlackScholesModel.d1 S K T r sigma) sigma T)) :=
        mul_le_mul_of_nonneg_left hkey hc

/-- C1: put-call parity.  For `S>0, K>0, T>0, sigma>0` and any `r` the
difference `european_call - european_put` equals `S - K·e^{-rT}` exactly
(hence within `1e-6`): both raw Black-Scholes values are nonnegative, so
the `max(·,0)` floors never alter them, and the CDF symmetry
`normCdf x + normCdf (-x) = 1` cancels the remaining terms. -/
theorem c1_put_call_parity (S K T r sigma : ℝ) (hS : 0 < S) (hK : 0 < K)
    (hT : 0 < T) (hsig : 0 < sigma) :
    |BlackScholesModel.european_call S K T r sigma -
      BlackScholesModel.european_put S K T r sigma -
      (S - K * Real.exp (-r * T))| ≤ 1 / 1000000 := by
  have hnT : ¬ T ≤ 0 := not_le.2 hT
  have hcall : BlackScholesModel.european_call S K T r sigma =
      S * normCdf (BlackScholesModel.d1 S K T r sigma) -
        K * Real.exp (-r * T) *
          normCdf (BlackScholesModel.d2 (BlackScholesModel.d1 S K T r sigma) sigma T) := by
    unfold BlackScholesModel.european_call
    rw [if_neg hnT]
    exact max_eq_left (sub_nonneg.2 (bs_call_raw_nonneg S K T r sigma hS hK hT hsig))
  have hput : BlackScholesModel.european_put S K T r sigma =
      K * Real.exp (-r * T) *
        normCdf (-(BlackScholesModel.d2 (BlackScholesModel.d1 S K T r sigma) sigma T)) -
        S * normCdf (-(BlackScholesModel.d1 S K T r sigma)) := by
    unfold BlackScholesModel.european_put
    rw [if_neg hnT]
    exact max_eq_left (sub_nonneg.2 (bs_put_raw_nonneg S K T r sigma hS hK hT hsig))
  rw [hcall, hput]
  have h1 := normCdf_add_neg (BlackScholesModel.d1 S K T r sigma)
  have h2 := normCdf_add_neg
    (BlackScholesModel.d2 (BlackScholesModel.d1 S K T r sigma) sigma T)
  have e1 : S * normCdf (BlackScholesModel.d1 S K T r sigma) +
      S * normCdf (-(BlackScholesModel.d1 S K T r sigma)) = S := by
    rw [← mul_add, h1, mul_one]
  have e2 : K * Real.exp (-r * T) *
      normCdf (BlackScholesModel.d2 (BlackScholesModel.d1 S K T r sigma) sigma T) +
      K * Real.exp (-r * T) *
      normCdf (-(BlackScholesModel.d2 (BlackScholesModel.d1 S K T r sigma) sigma T)) =
      K * Real.exp (-r * T) := by
    rw [← mul_add, h2, mul_one]
  have hz : S * normCdf (BlackScholesModel.d1 S K T r sigma) -
      K * Real.exp (-r * T) *
        normCdf (BlackScholesModel.d2 (BlackScholesModel.d1 S K T r sigma) sigma T) -
      (K * Real.exp (-r * T) *
        normCdf (-(BlackScholesModel.d2 (BlackScholesModel.d1 S K T r sigma) sigma T)) -
        S * normCdf (-(BlackScholesModel.d1 S K T r sigma))) -
      (S - K * Real.exp (-r * T)) = 0 := by linarith
  rw [hz, abs_zero]
  norm_num

/-- Witness for C1 at `S = 1, K = 1, T = 1, r = 0, sigma = 1`. -/
theorem c1_put_call_parity_witness :
    (0 : ℝ) < 1 ∧
    |BlackScholesModel.european_call 1 1 1 0 1 -
      BlackScholesModel.european_put 1 1 1 0 1 -
      (1 - 1 * Real.exp (-0 * 1))| ≤ 1 / 1000000 :=
  ⟨by norm_num, c1_put_call_parity 1 1 1 0 1 (by norm_num) (by norm_num)
    (by norm_num) (by norm_num)⟩
